import Mathlib

/-!
Shallow embedding of the task state-management core of a client-side
task manager (source: `src/hooks/useTasks.ts`, types in
`src/types/Task.ts`, persistence adapter `useLocalStorage`).

Points in time (JS `Date` values) are modelled as `Int` milliseconds
since the epoch; `new Date(a) < new Date(b)` is `a < b`.  Each place the
source calls `new Date()` or `Date.now()` becomes an explicit `now`
parameter, and the freshly generated id of `addTask` becomes an explicit
`newId` parameter, making the ambient nondeterminism (clock, randomness)
visible in the state-transition functions.
-/

namespace TaskMgr

/-- `type Priority = 'high' | 'medium' | 'low'` from `src/types/Task.ts`. -/
inductive Priority where
  | high : Priority
  | medium : Priority
  | low : Priority
deriving DecidableEq, Repr

/-- `interface Task` from `src/types/Task.ts`.  `description` and
`dueDate` are optional fields; timestamps are `Int` milliseconds. -/
structure Task where
  id : String
  title : String
  description : Option String
  priority : Priority
  completed : Bool
  dueDate : Option Int
  createdAt : Int
  updatedAt : Int
deriving DecidableEq, Repr

/-- `type TaskFormData` from `src/types/Task.ts`: the mutable subset of a
Task accepted from the editor surface. -/
structure TaskFormData where
  title : String
  description : Option String
  priority : Priority
  dueDate : Option Int
deriving DecidableEq, Repr

/-- The state owned by the `useTasks` hook: the task list (backed by
`useLocalStorage`), the task currently being edited, and the search
query. -/
structure TaskStore where
  tasks : List Task
  editingTask : Option Task
  searchQuery : String
deriving DecidableEq, Repr

/-- The initial store state when nothing is persisted: `useState`/
`useLocalStorage` defaults in `useTasks`. -/
def emptyStore : TaskStore :=
  { tasks := [], editingTask := none, searchQuery := "" }

/-- The Task literal built by `addTask` in `useTasks.ts` (lines 20-32):
fresh id, fields copied from the form data, `completed: false`,
`createdAt`/`updatedAt` both set to the current instant. -/
def newTask (taskData : TaskFormData) (newId : String) (now : Int) : Task :=
  { id := newId
    title := taskData.title
    description := taskData.description
    priority := taskData.priority
    completed := false
    dueDate := taskData.dueDate
    createdAt := now
    updatedAt := now }

/-- `addTask` from `useTasks.ts`: `setTasks(prev => [...prev, newTask])`. -/
def addTask (s : TaskStore) (taskData : TaskFormData) (newId : String)
    (now : Int) : TaskStore :=
  { s with tasks := s.tasks ++ [newTask taskData newId now] }

/-- The per-task update applied by `editTask`'s `map` callback: replace
`title`, `description`, `priority`, `dueDate` from the form data and set
`updatedAt`; `id`, `completed`, `createdAt` are spread through. -/
def applyEdit (taskData : TaskFormData) (now : Int) (task : Task) : Task :=
  { task with
    title := taskData.title
    description := taskData.description
    priority := taskData.priority
    dueDate := taskData.dueDate
    updatedAt := now }

/-- `editTask` from `useTasks.ts` (lines 35-51): no-op when
`editingTask` is null; otherwise maps over `tasks`, rewriting every task
whose id equals `editingTask.id`, then clears `editingTask`. -/
def editTask (s : TaskStore) (taskData : TaskFormData) (now : Int) :
    TaskStore :=
  match s.editingTask with
  | none => s
  | some e =>
    { s with
      tasks := s.tasks.map (fun task =>
        if task.id = e.id then applyEdit taskData now task else task)
      editingTask := none }

/-- `deleteTask` from `useTasks.ts` (lines 54-59): filters out the
matching id and clears `editingTask` when it refers to the same id. -/
def deleteTask (s : TaskStore) (taskId : String) : TaskStore :=
  { s with
    tasks := s.tasks.filter (fun task => task.id ≠ taskId)
    editingTask :=
      match s.editingTask with
      | some e => if e.id = taskId then none else some e
      | none => none }

/-- `toggleTaskComplete` from `useTasks.ts` (lines 62-72): flips
`completed` and refreshes `updatedAt` on every task with the matching
id. -/
def toggleTaskComplete (s : TaskStore) (taskId : String) (now : Int) :
    TaskStore :=
  { s with
    tasks := s.tasks.map (fun task =>
      if task.id = taskId then
        { task with completed := !task.completed, updatedAt := now }
      else task) }

/-- `startEditingTask` from `useTasks.ts`. -/
def startEditingTask (s : TaskStore) (task : Task) : TaskStore :=
  { s with editingTask := some task }

/-- `cancelEditing` from `useTasks.ts`. -/
def cancelEditing (s : TaskStore) : TaskStore :=
  { s with editingTask := none }

/-- `clearAllTasks` from `useTasks.ts`. -/
def clearAllTasks (_s : TaskStore) : TaskStore :=
  { tasks := [], editingTask := none, searchQuery := "" }

/-- `setSearchQuery` from `useTasks.ts` (the `useState` setter). -/
def setSearchQuery (s : TaskStore) (query : String) : TaskStore :=
  { s with searchQuery := query }

/-- JS `String.prototype.toLowerCase`, embedded as a character-wise map. -/
def jsToLower (s : String) : String :=
  String.mk (s.toList.map Char.toLower)

/-- JS `String.prototype.trim`: strip leading and trailing whitespace. -/
def jsTrim (s : String) : String :=
  String.mk
    (((s.toList.dropWhile Char.isWhitespace).reverse.dropWhile
      Char.isWhitespace).reverse)

/-- Helper for `jsIncludes`: does `q` occur as a contiguous run inside the
character list? -/
def includesList (q : List Char) : List Char → Bool
  | [] => q.isEmpty
  | c :: rest => q.isPrefixOf (c :: rest) || includesList q rest

/-- JS `s.includes(q)`: substring containment. -/
def jsIncludes (s q : String) : Bool :=
  includesList q.toList s.toList

/-- The per-task body of `filteredTasks`'s `filter` callback in
`useTasks.ts` (lines 96-99):
`task.title.toLowerCase().includes(query) ||
 task.description.toLowerCase().includes(query)`.
The `||` short-circuits, so `description` is only touched when the title
does not match; when it is then absent (`undefined`), the
`toLowerCase()` call throws a TypeError, modelled as `Except.error ()`. -/
def taskMatches (query : String) (task : Task) : Except Unit Bool :=
  if jsIncludes (jsToLower task.title) query then Except.ok true
  else
    match task.description with
    | some d => Except.ok (jsIncludes (jsToLower d) query)
    | none => Except.error ()

/-- JS `Array.prototype.filter` over `taskMatches`, evaluating the
callback left to right; the first thrown TypeError aborts the whole
evaluation. -/
def filterTasksE (query : String) : List Task → Except Unit (List Task)
  | [] => Except.ok []
  | task :: rest =>
    match taskMatches query task with
    | Except.error e => Except.error e
    | Except.ok b =>
      match filterTasksE query rest with
      | Except.error e => Except.error e
      | Except.ok l => Except.ok (if b then task :: l else l)

/-- `filteredTasks` from `useTasks.ts` (lines 92-100): the whole task
list when the trimmed query is empty, otherwise the filter above with
the lower-cased query.  The `Except` layer records that the source can
throw while filtering. -/
def filteredTasks (s : TaskStore) : Except Unit (List Task) :=
  if jsTrim s.searchQuery = "" then Except.ok s.tasks
  else filterTasksE (jsToLower s.searchQuery) s.tasks

/-- The record returned by `taskStats`. -/
structure TaskStats where
  total : Nat
  completed : Nat
  pending : Nat
  overdue : Nat
deriving DecidableEq, Repr

/-- The body of `taskStats`'s `overdue` filter callback in `useTasks.ts`
(lines 107-110): `if (!task.dueDate || task.completed) return false;
return new Date(task.dueDate) < new Date();`. -/
def isOverdue (now : Int) (task : Task) : Bool :=
  match task.dueDate with
  | none => false
  | some d => if task.completed then false else decide (d < now)

/-- `taskStats` from `useTasks.ts` (lines 103-113), with `new Date()`
at evaluation time passed as `now`. -/
def taskStats (s : TaskStore) (now : Int) : TaskStats :=
  { total := s.tasks.length
    completed := (s.tasks.filter (fun task => task.completed)).length
    pending :=
      s.tasks.length - (s.tasks.filter (fun task => task.completed)).length
    overdue := (s.tasks.filter (fun task => isOverdue now task)).length }

/-- JSON wire values as used by the Durable Store Adapter. -/
inductive Json where
  | null : Json
  | bool : Bool → Json
  | num : Int → Json
  | str : String → Json
  | arr : List Json → Json
  | obj : List (String × Json) → Json

/-- Serialize a `Priority` to its JSON string. -/
def encodePriority : Priority → Json
  | Priority.high => Json.str "high"
  | Priority.medium => Json.str "medium"
  | Priority.low => Json.str "low"

/-- Parse a `Priority` back from JSON. -/
def decodePriority : Json → Option Priority
  | Json.str "high" => some Priority.high
  | Json.str "medium" => some Priority.medium
  | Json.str "low" => some Priority.low
  | _ => none

/-- Serialize an optional string field (`null` when absent). -/
def encodeOptStr : Option String → Json
  | some v => Json.str v
  | none => Json.null

/-- Serialize an optional timestamp field (`null` when absent). -/
def encodeOptTime : Option Int → Json
  | some v => Json.num v
  | none => Json.null

/-- Modelled from the spec: `useLocalStorage.ts` is not among the source
files (only its test suite is), so the serialization of one Task follows
section 6 of the spec: a JSON object per Task whose `dueDate`,
`createdAt`, `updatedAt` are timestamps convertible to/from a
point-in-time type (here `Int` milliseconds). -/
def encodeTask (t : Task) : Json :=
  Json.obj
    [("id", Json.str t.id),
     ("title", Json.str t.title),
     ("description", encodeOptStr t.description),
     ("priority", encodePriority t.priority),
     ("completed", Json.bool t.completed),
     ("dueDate", encodeOptTime t.dueDate),
     ("createdAt", Json.num t.createdAt),
     ("updatedAt", Json.num t.updatedAt)]

/-- Parse an optional string field back. -/
def decodeOptStr : Json → Option (Option String)
  | Json.null => some none
  | Json.str v => some (some v)
  | _ => none

/-- Parse an optional timestamp field back. -/
def decodeOptTime : Json → Option (Option Int)
  | Json.null => some none
  | Json.num v => some (some v)
  | _ => none

/-- Modelled from the spec: structured decode of one Task with fallback
on any shape mismatch (spec section 9: a `parse-with-fallback` contract,
`Ok(value) | UseDefault`). -/
def decodeTask : Json → Option Task
  | Json.obj
      [("id", Json.str i), ("title", Json.str ti), ("description", de),
       ("priority", pr), ("completed", Json.bool c), ("dueDate", du),
       ("createdAt", Json.num ca), ("updatedAt", Json.num ua)] =>
    match decodeOptStr de, decodePriority pr, decodeOptTime du with
    | some d, some p, some dd =>
      some
        { id := i, title := ti, description := d, priority := p,
          completed := c, dueDate := dd, createdAt := ca, updatedAt := ua }
    | _, _, _ => none
  | _ => none

/-- Serialize the whole task list: a JSON array of Task objects. -/
def encodeTasks (ts : List Task) : Json :=
  Json.arr (ts.map encodeTask)

/-- Decode a list of JSON values into Tasks, failing if any element
fails. -/
def decodeTaskList : List Json → Option (List Task)
  | [] => some []
  | j :: rest =>
    match decodeTask j, decodeTaskList rest with
    | some t, some ts => some (t :: ts)
    | _, _ => none

/-- Decode the persisted slot: a JSON array of Task objects, anything
else counting as corrupt. -/
def decodeTasks : Json → Option (List Task)
  | Json.arr l => decodeTaskList l
  | _ => none

/-- Modelled from the spec: the browser's durable key-value store, one
JSON value per key; `none` covers both an absent slot and raw text that
fails to parse as JSON (spec section 4.1 treats the two alike). -/
def DurableStore : Type := String → Option Json

/-- Modelled from the spec: `write(key, value)` of the Durable Store
Adapter — serializes the value and stores it under the key. -/
def storeWrite (store : DurableStore) (key : String) (v : Json) :
    DurableStore :=
  fun k => if k = key then some v else store k

/-- Modelled from the spec: `read(key) -> value | defaultValue` of the
Durable Store Adapter — a missing, unparsable, or undecodable slot
yields the caller-supplied default and never raises. -/
def storeReadTasks (store : DurableStore) (key : String)
    (defaultValue : List Task) : List Task :=
  match store key with
  | none => defaultValue
  | some j =>
    match decodeTasks j with
    | some ts => ts
    | none => defaultValue

/-- Persisting the current `tasks` as `useTasks` does on every mutation:
the whole list is written under the single key `"tasks"`. -/
def persistTasks (store : DurableStore) (ts : List Task) : DurableStore :=
  storeWrite store "tasks" (encodeTasks ts)

/-- A fresh store instance's initialization, as in
`useLocalStorage<Task[]>('tasks', [])`: load the slot, defaulting to the
empty list. -/
def loadTasks (store : DurableStore) : List Task :=
  storeReadTasks store "tasks" []

/-- One invocation of a `useTasks` operation, carrying the ambient
inputs (current instant for each `new Date()`, generated id) the source
consumed from its environment. -/
inductive Op where
  | add (taskData : TaskFormData) (newId : String) (now : Int)
  | edit (taskData : TaskFormData) (now : Int)
  | delete (taskId : String)
  | toggle (taskId : String) (now : Int)
  | startEditing (task : Task)
  | cancelEdit
  | clearAll
  | setQuery (query : String)

/-- Dispatch one operation on the store. -/
def applyOp (s : TaskStore) : Op → TaskStore
  | Op.add d i n => addTask s d i n
  | Op.edit d n => editTask s d n
  | Op.delete i => deleteTask s i
  | Op.toggle i n => toggleTaskComplete s i n
  | Op.startEditing t => startEditingTask s t
  | Op.cancelEdit => cancelEditing s
  | Op.clearAll => clearAllTasks s
  | Op.setQuery q => setSearchQuery s q

/-- Run a sequence of operations left to right. -/
def runOps (s : TaskStore) : List Op → TaskStore
  | [] => s
  | op :: ops => runOps (applyOp s op) ops

/-- The instant an operation read from the clock, if it read one. -/
def opTime : Op → Option Int
  | Op.add _ _ n => some n
  | Op.edit _ n => some n
  | Op.toggle _ n => some n
  | _ => none

/-- The clock observations along a trace never decrease, starting from a
lower bound `c` (the non-decreasing-clock environment assumption). -/
def clockMono (c : Int) : List Op → Bool
  | [] => true
  | op :: ops =>
    match opTime op with
    | none => clockMono c ops
    | some n => decide (c ≤ n) && clockMono n ops

/-- Every task's timestamps are ordered and bounded by the clock `c`. -/
def TimeBounded (c : Int) (s : TaskStore) : Prop :=
  ∀ t ∈ s.tasks, t.createdAt ≤ t.updatedAt ∧ t.updatedAt ≤ c

/-- One `addTask` call's inputs: the form data plus the ambient
generated id and instant. -/
structure AddCall where
  taskData : TaskFormData
  newId : String
  now : Int
deriving DecidableEq, Repr

/-- Run a sequence of `addTask` calls left to right. -/
def addMany (s : TaskStore) : List AddCall → TaskStore
  | [] => s
  | c :: rest => addMany (addTask s c.taskData c.newId c.now) rest

/-- A list is `Forall₂`-related to its image under a map whenever each
element is related to its own image. -/
theorem forall₂_map_self {α : Type} (R : α → α → Prop) (f : α → α)
    (l : List α) (h : ∀ a ∈ l, R a (f a)) : List.Forall₂ R l (l.map f) := by
  induction l with
  | nil => exact List.Forall₂.nil
  | cons a t ih =>
    exact List.Forall₂.cons (h a (by simp))
      (ih (fun b hb => h b (by simp [hb])))

/-- A map that fixes every element of a list fixes the list. -/
theorem map_eq_self_of_id {α : Type} (f : α → α) (l : List α)
    (h : ∀ a ∈ l, f a = a) : l.map f = l := by
  induction l with
  | nil => rfl
  | cons a t ih =>
    simp only [List.map_cons, h a (by simp),
      ih (fun b hb => h b (by simp [hb]))]

/-- Decoding inverts encoding on a single Task. -/
theorem decodeTask_encodeTask (t : Task) :
    decodeTask (encodeTask t) = some t := by
  obtain ⟨i, ti, de, pr, c, du, ca, ua⟩ := t
  cases de <;> cases pr <;> cases du <;> rfl

/-- Decoding inverts encoding elementwise on a list of Tasks. -/
theorem decodeTaskList_map_encodeTask (ts : List Task) :
    decodeTaskList (ts.map encodeTask) = some ts := by
  induction ts with
  | nil => rfl
  | cons t rest ih =>
    simp only [List.map_cons, decodeTaskList, decodeTask_encodeTask t, ih]

/-- Decoding inverts encoding on the whole persisted array. -/
theorem decodeTasks_encodeTasks (ts : List Task) :
    decodeTasks (encodeTasks ts) = some ts := by
  simp only [encodeTasks, decodeTasks, decodeTaskList_map_encodeTask]

/-- The overdue test of `taskStats`, rephrased as the spec states it:
not completed, due date present, due date strictly before now. -/
theorem isOverdue_eq (now : Int) (t : Task) :
    isOverdue now t =
      (!t.completed &&
        (match t.dueDate with
         | some d => decide (d < now)
         | none => false)) := by
  unfold isOverdue
  cases t.dueDate <;> cases hc : t.completed <;> simp

/-- C1: the claim says `filteredTasks` never fails when a task's
description is absent, the task then matching as if its description were
empty.  The source violates this: with a non-empty trimmed query that
does not match the title, `task.description.toLowerCase()` is evaluated
on `undefined` and throws.  This theorem evaluates the embedded code at
such a failing input: one task titled "alpha" with no description,
query "b", and `filteredTasks` yields the thrown-error outcome instead
of a list. -/
theorem filteredTasks_throws_on_absent_description :
    filteredTasks
      { tasks :=
          [{ id := "t1", title := "alpha", description := none,
             priority := Priority.low, completed := false, dueDate := none,
             createdAt := 0, updatedAt := 0 }],
        editingTask := none, searchQuery := "b" } = Except.error () := by
  rfl

/-- C2: persisting the full task list through the Durable Store Adapter
and loading it into a fresh store instance returns the original list,
field for field, timestamps included.  (Adapter modelled from the spec:
`useLocalStorage.ts` is not among the sources.) -/
theorem tasks_roundTrip (store : DurableStore) (ts : List Task) :
    loadTasks (persistTasks store ts) = ts := by
  simp [loadTasks, persistTasks, storeWrite, storeReadTasks,
    decodeTasks_encodeTasks]

/-- C8: when `editingTask` is not set, `editTask` is a complete no-op:
the whole store state (tasks, editingTask, searchQuery) is unchanged. -/
theorem editTask_noop_when_not_editing (s : TaskStore) (d : TaskFormData)
    (now : Int) (h : s.editingTask = none) : editTask s d now = s := by
  unfold editTask
  rw [h]

/-- Witness for C8 at a concrete input. -/
theorem editTask_noop_when_not_editing_witness :
    emptyStore.editingTask = none ∧
      editTask emptyStore
        { title := "x", description := none, priority := Priority.low,
          dueDate := none } 7 = emptyStore :=
  ⟨rfl, editTask_noop_when_not_editing emptyStore
    { title := "x", description := none, priority := Priority.low,
      dueDate := none } 7 rfl⟩

/-- C10: when `editingTask` holds a task whose id occurs nowhere in
`tasks`, `editTask` leaves the task list unchanged yet still clears
`editingTask` — the clearing is unconditional once `editingTask` is
set. -/
theorem editTask_clears_editing_on_absent_id (s : TaskStore)
    (d : TaskFormData) (now : Int) (e : Task)
    (he : s.editingTask = some e) (habs : ∀ t ∈ s.tasks, t.id ≠ e.id) :
    (editTask s d now).tasks = s.tasks ∧
      (editTask s d now).editingTask = none := by
  unfold editTask
  rw [he]
  refine ⟨?_, rfl⟩
  exact map_eq_self_of_id _ _ (fun t ht => by simp [habs t ht])

/-- Witness for C10 at a concrete input. -/
theorem editTask_clears_editing_on_absent_id_witness :
    ({ tasks :=
        [{ id := "a", title := "t", description := none,
           priority := Priority.low, completed := false, dueDate := none,
           createdAt := 0, updatedAt := 0 }],
       editingTask := some
         { id := "b", title := "u", description := none,
           priority := Priority.high, completed := false, dueDate := none,
           createdAt := 0, updatedAt := 0 },
       searchQuery := "" } : TaskStore).editingTask = some
         { id := "b", title := "u", description := none,
           priority := Priority.high, completed := false, dueDate := none,
           createdAt := 0, updatedAt := 0 } ∧
      (editTask
        { tasks :=
            [{ id := "a", title := "t", description := none,
               priority := Priority.low, completed := false, dueDate := none,
               createdAt := 0, updatedAt := 0 }],
          editingTask := some
            { id := "b", title := "u", description := none,
              priority := Priority.high, completed := false, dueDate := none,
              createdAt := 0, updatedAt := 0 },
          searchQuery := "" }
        { title := "v", description := none, priority := Priority.medium,
          dueDate := none } 3).tasks =
        [{ id := "a", title := "t", description := none,
           priority := Priority.low, completed := false, dueDate := none,
           createdAt := 0, updatedAt := 0 }] ∧
      (editTask
        { tasks :=
            [{ id := "a", title := "t", description := none,
               priority := Priority.low, completed := false, dueDate := none,
               createdAt := 0, updatedAt := 0 }],
          editingTask := some
            { id := "b", title := "u", description := none,
              priority := Priority.high, completed := false, dueDate := none,
              createdAt := 0, updatedAt := 0 },
          searchQuery := "" }
        { title := "v", description := none, priority := Priority.medium,
          dueDate := none } 3).editingTask = none :=
  ⟨rfl,
    (editTask_clears_editing_on_absent_id _ _ 3 _ rfl (by decide)).1,
    (editTask_clears_editing_on_absent_id _ _ 3 _ rfl (by decide)).2⟩

/-- C6: `taskStats` computes exactly the spec's four aggregates: `total`
is the list length, `completed` counts tasks with `completed = true`,
`pending` is their difference, and `overdue` counts tasks that are not
completed, have a due date, and whose due date is strictly before the
evaluation instant. -/
theorem taskStats_spec (s : TaskStore) (now : Int) :
    taskStats s now =
      { total := s.tasks.length
        completed := s.tasks.countP (fun t => t.completed)
        pending := s.tasks.length - s.tasks.countP (fun t => t.completed)
        overdue := s.tasks.countP (fun t =>
          !t.completed &&
            (match t.dueDate with
             | some d => decide (d < now)
             | none => false)) } := by
  unfold taskStats
  rw [List.filter_congr (fun t _ => isOverdue_eq now t)]
  simp [List.countP_eq_length_filter]

/-- C7: `deleteTask` keeps exactly the tasks whose id differs (so it is
a no-op on the list when the id is absent), a second identical delete
changes nothing at all, and when `editingTask` refers to the deleted id
it is cleared. -/
theorem deleteTask_spec (s : TaskStore) (taskId : String) :
    (∀ t : Task,
      t ∈ (deleteTask s taskId).tasks ↔ t ∈ s.tasks ∧ t.id ≠ taskId) ∧
    ((∀ t ∈ s.tasks, t.id ≠ taskId) →
      (deleteTask s taskId).tasks = s.tasks) ∧
    deleteTask (deleteTask s taskId) taskId = deleteTask s taskId ∧
    (∀ e : Task, s.editingTask = some e → e.id = taskId →
      (deleteTask s taskId).editingTask = none) := by
  refine ⟨?_, ?_, ?_, ?_⟩
  · intro t
    simp [deleteTask, List.mem_filter]
  · intro h
    simp only [deleteTask]
    exact List.filter_eq_self.mpr (fun t ht => by simp [h t ht])
  · unfold deleteTask
    cases he : s.editingTask with
    | none => simp [List.filter_filter]
    | some e =>
      by_cases hid : e.id = taskId <;> simp [hid, List.filter_filter]
  · intro e he hid
    simp [deleteTask, he, hid]

/-- Witness for C7 at a concrete input (C7's theorem has hypotheses only
inside the conjunction; this instantiates the whole statement). -/
theorem deleteTask_spec_witness :
    (∀ t : Task,
      t ∈ (deleteTask emptyStore "z").tasks ↔
        t ∈ emptyStore.tasks ∧ t.id ≠ "z") ∧
    ((∀ t ∈ emptyStore.tasks, t.id ≠ "z") →
      (deleteTask emptyStore "z").tasks = emptyStore.tasks) ∧
    deleteTask (deleteTask emptyStore "z") "z" = deleteTask emptyStore "z" ∧
    (∀ e : Task, emptyStore.editingTask = some e → e.id = "z" →
      (deleteTask emptyStore "z").editingTask = none) :=
  deleteTask_spec emptyStore "z"

/-- Running a sequence of `addTask` calls appends the freshly built
tasks, in call order, to the end of the list. -/
theorem addMany_tasks (inputs : List AddCall) : ∀ s : TaskStore,
    (addMany s inputs).tasks =
      s.tasks ++ inputs.map (fun c => newTask c.taskData c.newId c.now) := by
  induction inputs with
  | nil => intro s; simp [addMany]
  | cons c rest ih =>
    intro s
    simp [addMany, ih, addTask, List.append_assoc]

/-- C3: a sequence of `addTask` calls grows `tasks` by exactly the
number of calls; each call appends a task with `completed = false`,
`createdAt = updatedAt = now` and the form fields copied; and when the
generated ids are fresh (pairwise distinct and distinct from the ids
already in the store — the source draws them from
`Date.now` + `Math.random`, unique with overwhelming probability), all
ids in the resulting list are pairwise distinct. -/
theorem addMany_spec (s : TaskStore) (inputs : List AddCall)
    (hfresh : (s.tasks.map Task.id ++ inputs.map AddCall.newId).Nodup) :
    (addMany s inputs).tasks.length = s.tasks.length + inputs.length ∧
    (addMany s inputs).tasks =
      s.tasks ++ inputs.map (fun c =>
        { id := c.newId, title := c.taskData.title,
          description := c.taskData.description,
          priority := c.taskData.priority, completed := false,
          dueDate := c.taskData.dueDate, createdAt := c.now,
          updatedAt := c.now }) ∧
    ((addMany s inputs).tasks.map Task.id).Nodup := by
  have h1 := addMany_tasks inputs s
  refine ⟨by simp [h1], h1, ?_⟩
  rw [h1, List.map_append, List.map_map]
  exact hfresh

/-- The concrete `addTask` call sequence used by C3's witness. -/
def c3Calls : List AddCall :=
  [{ taskData :=
      { title := "m", description := none, priority := Priority.low,
        dueDate := none },
     newId := "i1", now := 5 },
   { taskData :=
      { title := "n", description := some "d", priority := Priority.high,
        dueDate := some 9 },
     newId := "i2", now := 6 }]

/-- Witness for C3 at a concrete input. -/
theorem addMany_spec_witness :
    (emptyStore.tasks.map Task.id ++ c3Calls.map AddCall.newId).Nodup ∧
    ((addMany emptyStore c3Calls).tasks.length =
      emptyStore.tasks.length + c3Calls.length ∧
    (addMany emptyStore c3Calls).tasks =
      emptyStore.tasks ++ c3Calls.map (fun c =>
        { id := c.newId, title := c.taskData.title,
          description := c.taskData.description,
          priority := c.taskData.priority, completed := false,
          dueDate := c.taskData.dueDate, createdAt := c.now,
          updatedAt := c.now }) ∧
    ((addMany emptyStore c3Calls).tasks.map Task.id).Nodup) :=
  ⟨by decide, addMany_spec emptyStore c3Calls (by decide)⟩

/-- C4: after `startEditingTask(t)` put `t` (present in `tasks`) into
`editingTask`, `editTask(data)` rewrites exactly the positions whose id
equals `t.id` — every other position is unchanged byte for byte; on the
rewritten ones `id`, `completed`, `createdAt` are kept, the four form
fields are replaced, and `updatedAt` strictly increases (the clock `now`
having advanced past every stored `updatedAt`); `editingTask` is cleared
to none. -/
theorem editTask_frame (s : TaskStore) (d : TaskFormData) (now : Int)
    (t : Task) (he : s.editingTask = some t) (_hmem : t ∈ s.tasks)
    (hclock : ∀ u ∈ s.tasks, u.updatedAt < now) :
    List.Forall₂ (fun old nw =>
        (old.id ≠ t.id → nw = old) ∧
        (old.id = t.id →
          nw.id = old.id ∧ nw.completed = old.completed ∧
          nw.createdAt = old.createdAt ∧ nw.title = d.title ∧
          nw.description = d.description ∧ nw.priority = d.priority ∧
          nw.dueDate = d.dueDate ∧ old.updatedAt < nw.updatedAt))
      s.tasks (editTask s d now).tasks ∧
    (editTask s d now).editingTask = none := by
  unfold editTask
  rw [he]
  refine ⟨?_, rfl⟩
  refine forall₂_map_self _ _ _ (fun u hu => ?_)
  by_cases hid : u.id = t.id
  · exact ⟨fun h => absurd hid h,
      fun _ => by simp [hid, applyEdit, hclock u hu]⟩
  · exact ⟨fun _ => by simp [hid], fun h => absurd h hid⟩

/-- The concrete store used by the witnesses of C4 and C5. -/
def sampleTask : Task :=
  { id := "a", title := "t", description := none, priority := Priority.low,
    completed := false, dueDate := none, createdAt := 0, updatedAt := 0 }

/-- The concrete store used by the witnesses of C4 and C5. -/
def sampleStore : TaskStore :=
  { tasks := [sampleTask], editingTask := some sampleTask,
    searchQuery := "" }

/-- The concrete form data used by the witness of C4. -/
def sampleForm : TaskFormData :=
  { title := "v", description := some "w", priority := Priority.high,
    dueDate := some 8 }

/-- Witness for C4 at a concrete input. -/
theorem editTask_frame_witness :
    sampleStore.editingTask = some sampleTask ∧
    sampleTask ∈ sampleStore.tasks ∧
    (∀ u ∈ sampleStore.tasks, u.updatedAt < 4) ∧
    (List.Forall₂ (fun old nw =>
        (old.id ≠ sampleTask.id → nw = old) ∧
        (old.id = sampleTask.id →
          nw.id = old.id ∧ nw.completed = old.completed ∧
          nw.createdAt = old.createdAt ∧ nw.title = sampleForm.title ∧
          nw.description = sampleForm.description ∧
          nw.priority = sampleForm.priority ∧
          nw.dueDate = sampleForm.dueDate ∧
          old.updatedAt < nw.updatedAt))
      sampleStore.tasks (editTask sampleStore sampleForm 4).tasks ∧
    (editTask sampleStore sampleForm 4).editingTask = none) :=
  ⟨rfl, by decide, by decide,
    editTask_frame sampleStore sampleForm 4 sampleTask rfl (by decide)
      (by decide)⟩

/-- C5: toggling a task's completion twice restores `completed` at every
position (with `id`, `createdAt` also preserved), the matching task's
`updatedAt` advances on each of the two calls (the clock moving
strictly forward), and toggling an id absent from the list leaves the
whole store unchanged. -/
theorem toggleTaskComplete_spec (s : TaskStore) (taskId : String)
    (now1 now2 : Int) (hc1 : ∀ u ∈ s.tasks, u.updatedAt < now1)
    (hc2 : now1 < now2) :
    List.Forall₂ (fun old mid =>
        (old.id = taskId →
          mid.completed = !old.completed ∧ mid.updatedAt = now1 ∧
            old.updatedAt < mid.updatedAt) ∧
        (old.id ≠ taskId → mid = old))
      s.tasks (toggleTaskComplete s taskId now1).tasks ∧
    List.Forall₂ (fun old nw =>
        nw.completed = old.completed ∧ nw.id = old.id ∧
        nw.createdAt = old.createdAt ∧
        (old.id = taskId →
          nw.updatedAt = now2 ∧ old.updatedAt < now1 ∧
            now1 < nw.updatedAt) ∧
        (old.id ≠ taskId → nw = old))
      s.tasks
      (toggleTaskComplete (toggleTaskComplete s taskId now1) taskId
        now2).tasks ∧
    (∀ (s' : TaskStore) (tid : String) (now : Int),
      (∀ u ∈ s'.tasks, u.id ≠ tid) →
        toggleTaskComplete s' tid now = s') := by
  refine ⟨?_, ?_, ?_⟩
  · refine forall₂_map_self _ _ _ (fun u hu => ?_)
    by_cases hid : u.id = taskId
    · exact ⟨fun _ => by simp [hid, hc1 u hu], fun h => absurd hid h⟩
    · exact ⟨fun h => absurd h hid, fun _ => by simp [hid]⟩
  · show List.Forall₂ _ s.tasks ((s.tasks.map _).map _)
    rw [List.map_map]
    refine forall₂_map_self _ _ _ (fun u hu => ?_)
    by_cases hid : u.id = taskId
    · refine ⟨by simp [hid], by simp [hid], by simp [hid],
        fun _ => ⟨by simp [hid], hc1 u hu, ?_⟩, fun h => absurd hid h⟩
      simpa [hid] using hc2
    · exact ⟨by simp [hid], by simp [hid], by simp [hid],
        fun h => absurd h hid, fun _ => by simp [hid]⟩
  · intro s' tid now h
    unfold toggleTaskComplete
    rw [map_eq_self_of_id _ _ (fun u hu => by simp [h u hu])]

/-- Witness for C5 at a concrete input. -/
theorem toggleTaskComplete_spec_witness :
    (∀ u ∈ sampleStore.tasks, u.updatedAt < 1) ∧ ((1 : Int) < 2) ∧
    (List.Forall₂ (fun old mid =>
        (old.id = "a" →
          mid.completed = !old.completed ∧ mid.updatedAt = 1 ∧
            old.updatedAt < mid.updatedAt) ∧
        (old.id ≠ "a" → mid = old))
      sampleStore.tasks (toggleTaskComplete sampleStore "a" 1).tasks ∧
    List.Forall₂ (fun old nw =>
        nw.completed = old.completed ∧ nw.id = old.id ∧
        nw.createdAt = old.createdAt ∧
        (old.id = "a" →
          nw.updatedAt = 2 ∧ old.updatedAt < 1 ∧ 1 < nw.updatedAt) ∧
        (old.id ≠ "a" → nw = old))
      sampleStore.tasks
      (toggleTaskComplete (toggleTaskComplete sampleStore "a" 1) "a"
        2).tasks ∧
    (∀ (s' : TaskStore) (tid : String) (now : Int),
      (∀ u ∈ s'.tasks, u.id ≠ tid) →
        toggleTaskComplete s' tid now = s')) :=
  ⟨by decide, by decide,
    toggleTaskComplete_spec sampleStore "a" 1 2 (by decide) (by decide)⟩

/-- A time bound transfers along `≤`. -/
theorem timeBounded_mono {c c' : Int} (h : c ≤ c') (s : TaskStore)
    (hs : TimeBounded c s) : TimeBounded c' s :=
  fun t ht => ⟨(hs t ht).1, le_trans (hs t ht).2 h⟩

/-- `addTask` preserves the timestamp invariant, rebounding at the call
instant. -/
theorem timeBounded_addTask {c n : Int} (s : TaskStore) (d : TaskFormData)
    (i : String) (h : c ≤ n) (hs : TimeBounded c s) :
    TimeBounded n (addTask s d i n) := by
  intro t ht
  simp only [addTask, List.mem_append, List.mem_singleton] at ht
  rcases ht with ht | rfl
  · exact timeBounded_mono h s hs t ht
  · simp [newTask]

/-- `editTask` preserves the timestamp invariant, rebounding at the call
instant. -/
theorem timeBounded_editTask {c n : Int} (s : TaskStore) (d : TaskFormData)
    (h : c ≤ n) (hs : TimeBounded c s) : TimeBounded n (editTask s d n) := by
  unfold editTask
  cases hse : s.editingTask with
  | none => exact timeBounded_mono h s hs
  | some e =>
    intro t ht
    simp only [List.mem_map] at ht
    rcases ht with ⟨u, hu, rfl⟩
    by_cases hid : u.id = e.id
    · simp only [hid, if_pos, applyEdit]
      exact ⟨le_trans (hs u hu).1 (le_trans (hs u hu).2 h), le_refl n⟩
    · simp only [hid, if_neg, not_false_iff]
      exact ⟨(hs u hu).1, le_trans (hs u hu).2 h⟩

/-- `toggleTaskComplete` preserves the timestamp invariant, rebounding
at the call instant. -/
theorem timeBounded_toggle {c n : Int} (s : TaskStore) (tid : String)
    (h : c ≤ n) (hs : TimeBounded c s) :
    TimeBounded n (toggleTaskComplete s tid n) := by
  intro t ht
  simp only [toggleTaskComplete, List.mem_map] at ht
  rcases ht with ⟨u, hu, rfl⟩
  by_cases hid : u.id = tid
  · simp only [hid, if_pos]
    exact ⟨le_trans (hs u hu).1 (le_trans (hs u hu).2 h), le_refl n⟩
  · simp only [hid, if_neg, not_false_iff]
    exact ⟨(hs u hu).1, le_trans (hs u hu).2 h⟩

/-- `deleteTask` preserves the timestamp invariant. -/
theorem timeBounded_deleteTask {c : Int} (s : TaskStore) (tid : String)
    (hs : TimeBounded c s) : TimeBounded c (deleteTask s tid) := by
  intro t ht
  exact hs t (List.mem_of_mem_filter ht)

/-- The trace lemma behind C9: running any monotone-clock trace from a
time-bounded store keeps every task's timestamps ordered. -/
theorem runOps_timeBounded (ops : List Op) : ∀ (c : Int) (s : TaskStore),
    TimeBounded c s → clockMono c ops = true →
    ∀ t ∈ (runOps s ops).tasks, t.createdAt ≤ t.updatedAt := by
  induction ops with
  | nil => intro c s hs _ t ht; exact (hs t ht).1
  | cons op rest ih =>
    intro c s hs hm
    cases op with
    | add d i n =>
      simp only [clockMono, opTime, Bool.and_eq_true, decide_eq_true_eq]
        at hm
      exact ih n _ (timeBounded_addTask s d i hm.1 hs) hm.2
    | edit d n =>
      simp only [clockMono, opTime, Bool.and_eq_true, decide_eq_true_eq]
        at hm
      exact ih n _ (timeBounded_editTask s d hm.1 hs) hm.2
    | delete i => exact ih c _ (timeBounded_deleteTask s i hs) hm
    | toggle i n =>
      simp only [clockMono, opTime, Bool.and_eq_true, decide_eq_true_eq]
        at hm
      exact ih n _ (timeBounded_toggle s i hm.1 hs) hm.2
    | startEditing t => exact ih c _ hs hm
    | cancelEdit => exact ih c _ hs hm
    | clearAll =>
      exact ih c _ (fun t ht => absurd ht (List.not_mem_nil t)) hm
    | setQuery q => exact ih c _ hs hm

/-- C9: in every store state reachable from the empty store by a
sequence of the eight operations whose clock observations never
decrease, every task satisfies `createdAt ≤ updatedAt`. -/
theorem reachable_createdAt_le_updatedAt (ops : List Op) (c : Int)
    (hm : clockMono c ops = true) :
    ∀ t ∈ (runOps emptyStore ops).tasks, t.createdAt ≤ t.updatedAt :=
  runOps_timeBounded ops c emptyStore
    (fun t ht => absurd ht (List.not_mem_nil t)) hm

/-- The concrete operation trace used by C9's witness. -/
def c9Ops : List Op :=
  [Op.add
      { title := "m", description := none, priority := Priority.low,
        dueDate := none } "i1" 1,
   Op.startEditing sampleTask,
   Op.edit
      { title := "n", description := some "d", priority := Priority.high,
        dueDate := some 9 } 2,
   Op.toggle "i1" 3,
   Op.delete "zz",
   Op.setQuery "q"]

/-- Witness for C9 at a concrete input. -/
theorem reachable_createdAt_le_updatedAt_witness :
    clockMono 0 c9Ops = true ∧
      ∀ t ∈ (runOps emptyStore c9Ops).tasks,
        t.createdAt ≤ t.updatedAt :=
  ⟨by decide, reachable_createdAt_le_updatedAt c9Ops 0 (by decide)⟩

end TaskMgr
